import Mathlib

/-!
Verification of `src/util.rs` of the pleezer repository.

The module under verification provides two facilities:

* saturating lossy conversions `to_f32_lossy` from `f64`, `u32`, `u64`,
  `i64`, `u128` and `usize` into `f32`;
* decibel/ratio gain conversions `db_to_ratio` and `ratio_to_db`, built on
  the fast approximate base-2 exponential and logarithm primitives of the
  external `fastapprox` crate.

The development embeds IEEE-754 binary32 and binary64 values exactly: a
float is a sign, a biased exponent and a fraction field, its value is an
exact rational, and every Rust operation (rounding of literals, arithmetic
with round-to-nearest-even, saturating `as` casts, `f64::clamp`, bit
reinterpretation) is translated to computable functions over `ℕ`/`ℤ`, so
that concrete runs of the code evaluate inside the kernel.  Mathlib's `ℚ`
appears only in theorem statements (exact values and error bounds), never
in the computations themselves.
-/

set_option maxRecDepth 10000
set_option maxHeartbeats 4000000

namespace Pleezer

/-- Fuel-bounded floor of the base-2 logarithm of a natural number: with
enough fuel, `log2F fuel n` is the exponent of the highest set bit of `n`
(and `0` for `n ≤ 1`).  Written with explicit fuel so that it is structural
recursion and reduces inside the kernel. -/
def log2F : ℕ → ℕ → ℕ
  | 0, _ => 0
  | fuel + 1, n => if 2 ≤ n then log2F fuel (n / 2) + 1 else 0

/-- Fuel that covers every number appearing in this development (binary64
values scaled by powers of two stay far below `2 ^ 4000`). -/
def FUEL : ℕ := 4000

/-- Decides whether the positive fraction `n / d` is below `2 ^ e`,
entirely in natural-number arithmetic. -/
def ltPow2 (n d : ℕ) (e : ℤ) : Bool :=
  if 0 ≤ e then decide (n < 2 ^ e.toNat * d) else decide (n * 2 ^ (-e).toNat < d)

/-- Floor of the base-2 logarithm of the positive fraction `n / d`.  The
candidate from the bit lengths of `n` and `d` is off by at most one and is
corrected by a single comparison. -/
def qlog2N (n d : ℕ) : ℤ :=
  let c : ℤ := (log2F FUEL n : ℤ) - (log2F FUEL d : ℤ)
  if ltPow2 n d c then c - 1 else c

/-- Round the nonnegative fraction `p / q` (with `q ≠ 0`) to the nearest
natural number, ties to even. -/
def rheN (p q : ℕ) : ℕ :=
  if 2 * (p % q) < q then p / q
  else if q < 2 * (p % q) then p / q + 1
  else if p / q % 2 = 0 then p / q else p / q + 1

/-- An exact signed fraction: sign (`true` is negative), numerator
magnitude and positive denominator.  `n = 0` encodes (signed) zero.
Intermediate results of float operations are held exactly in this form. -/
structure Q where
  sg : Bool
  n : ℕ
  d : ℕ
deriving DecidableEq

/-- The numerator of a `Q` as an integer with its sign applied. -/
def Q.zn (a : Q) : ℤ := if a.sg then -(a.n : ℤ) else (a.n : ℤ)

/-- Exact product of two fractions. -/
def qmul (a b : Q) : Q := ⟨xor a.sg b.sg, a.n * b.n, a.d * b.d⟩

/-- Exact quotient of two fractions (the caller guards a zero divisor). -/
def qdiv (a b : Q) : Q := ⟨xor a.sg b.sg, a.n * b.d, a.d * b.n⟩

/-- Exact sum of two fractions, via the signed cross product. -/
def qadd (a b : Q) : Q :=
  let z : ℤ := a.zn * (b.d : ℤ) + b.zn * (a.d : ℤ)
  ⟨decide (z < 0), z.natAbs, a.d * b.d⟩

/-- An IEEE-754 floating-point datum of either width: a finite value given
by sign, biased exponent and fraction field, an infinity, or NaN.  The
interpretation (binary32 or binary64) is fixed by the `Fmt` argument of
the functions below. -/
inductive FP where
  | finite (sign : Bool) (ex : ℕ) (frac : ℕ)
  | inf (sign : Bool)
  | nan
deriving DecidableEq

/-- A binary interchange format: fraction width and exponent bias. -/
structure Fmt where
  mant : ℕ
  bias : ℕ
deriving DecidableEq

/-- IEEE-754 binary32 (`f32`): 23 fraction bits, bias 127. -/
def fmt32 : Fmt := ⟨23, 127⟩

/-- IEEE-754 binary64 (`f64`): 52 fraction bits, bias 1023. -/
def fmt64 : Fmt := ⟨52, 1023⟩

/-- Well-formedness of an `FP` in a format: the biased exponent of a finite
datum is at most `2 * bias` (below the infinity/NaN exponent) and the
fraction fits in the fraction field. -/
def WfB (fmt : Fmt) : FP → Bool
  | .finite _ ex fr => decide (ex ≤ 2 * fmt.bias) && decide (fr < 2 ^ fmt.mant)
  | _ => true

/-- Whether the datum is a finite value (neither an infinity nor NaN). -/
def FP.isFinite : FP → Bool
  | .finite _ _ _ => true
  | _ => false

/-- Whether the datum is NaN. -/
def FP.isNaN : FP → Bool
  | .nan => true
  | _ => false

/-- The exact value of a finite datum as a fraction: a subnormal is
`frac * 2 ^ (1 - bias - mant)`, a normal is
`(2 ^ mant + frac) * 2 ^ (ex - bias - mant)`.  Infinities and NaN map to
zero (they are always guarded). -/
def FP.toQ (fmt : Fmt) : FP → Q
  | .finite s ex frac =>
      if ex = 0 then ⟨s, frac, 2 ^ (fmt.bias + fmt.mant - 1)⟩
      else
        let m := 2 ^ fmt.mant + frac
        if fmt.bias + fmt.mant ≤ ex then ⟨s, m * 2 ^ (ex - (fmt.bias + fmt.mant)), 1⟩
        else ⟨s, m, 2 ^ (fmt.bias + fmt.mant - ex)⟩
  | _ => ⟨false, 0, 1⟩

/-- The exact value of a finite datum as a rational number.  Used only in
theorem statements, never in the computable pipeline. -/
def FP.toRat (fmt : Fmt) (x : FP) : ℚ :=
  ((x.toQ fmt).zn : ℚ) / ((x.toQ fmt).d : ℚ)

/-- Negation of a float datum (flips the sign bit; NaN stays NaN). -/
def FP.fneg : FP → FP
  | .finite s ex fr => .finite (!s) ex fr
  | .inf s => .inf (!s)
  | .nan => .nan

/-- Round the positive fraction `n / d` (both at least 1) to the nearest
representable magnitude of the format, ties to even: the result is a
nonnegative finite datum, or `+∞` on overflow.  This is the round-to-
nearest-even kernel every operation below funnels through. -/
def roundPosMag (fmt : Fmt) (n d : ℕ) : FP :=
  let e := qlog2N n d
  if e < 1 - (fmt.bias : ℤ) then
    let m := rheN (n * 2 ^ (fmt.bias + fmt.mant - 1)) d
    if m < 2 ^ fmt.mant then .finite false 0 m else .finite false 1 0
  else
    let t : ℤ := (fmt.mant : ℤ) - e
    let m := if 0 ≤ t then rheN (n * 2 ^ t.toNat) d else rheN n (d * 2 ^ (-t).toNat)
    let e2 := if m = 2 ^ (fmt.mant + 1) then e + 1 else e
    let m2 := if m = 2 ^ (fmt.mant + 1) then 2 ^ fmt.mant else m
    if (fmt.bias : ℤ) < e2 then .inf false
    else .finite false (e2 + fmt.bias).toNat (m2 - 2 ^ fmt.mant)

/-- Round an exact fraction to the format, preserving the sign (a negative
underflow becomes `-0.0`, as round-to-nearest requires). -/
def roundQ (fmt : Fmt) (q : Q) : FP :=
  if q.n = 0 then .finite q.sg 0 0
  else if q.sg then (roundPosMag fmt q.n q.d).fneg else roundPosMag fmt q.n q.d

/-- The rounded value of a decimal (or any rational) literal of the source
program, e.g. `litQ fmt32 1212740575 (10 ^ 7)` is the `f32` literal
`121.2740575`. -/
def litQ (fmt : Fmt) (z : ℤ) (d : ℕ) : FP := roundQ fmt ⟨decide (z < 0), z.natAbs, d⟩

/-- Conversion of an integer to a float with round-to-nearest-even: Rust's
`as f32` / `as f64` on integer sources. -/
def intToFP (fmt : Fmt) (z : ℤ) : FP := roundQ fmt ⟨decide (z < 0), z.natAbs, 1⟩

/-- Whether the datum is a (positive or negative) zero. -/
def FP.isZero : FP → Bool
  | .finite _ 0 0 => true
  | _ => false

/-- IEEE-754 `<` on float data: NaN compares false with everything, the
zeros are equal, infinities are extreme. -/
def fplt (fmt : Fmt) (x y : FP) : Bool :=
  match x, y with
  | .nan, _ => false
  | _, .nan => false
  | .inf s, .inf t => s && !t
  | .inf s, _ => s
  | _, .inf t => !t
  | a, b => decide ((a.toQ fmt).zn * ((b.toQ fmt).d : ℤ) < (b.toQ fmt).zn * ((a.toQ fmt).d : ℤ))

/-- IEEE-754 `>` on float data. -/
def fpgt (fmt : Fmt) (x y : FP) : Bool := fplt fmt y x

/-- IEEE-754 `≤` on float data (false whenever a NaN is involved). -/
def fple (fmt : Fmt) (x y : FP) : Bool :=
  match x, y with
  | .nan, _ => false
  | _, .nan => false
  | .inf s, .inf t => s || !t
  | .inf s, _ => s
  | _, .inf t => !t
  | a, b => decide ((a.toQ fmt).zn * ((b.toQ fmt).d : ℤ) ≤ (b.toQ fmt).zn * ((a.toQ fmt).d : ℤ))

/-- IEEE-754 multiplication with round-to-nearest-even. -/
def fpmul (fmt : Fmt) (x y : FP) : FP :=
  match x, y with
  | .nan, _ => .nan
  | _, .nan => .nan
  | .inf s, .inf t => .inf (xor s t)
  | .inf s, .finite t ex fr =>
      if (FP.finite t ex fr).isZero then .nan else .inf (xor s t)
  | .finite t ex fr, .inf s =>
      if (FP.finite t ex fr).isZero then .nan else .inf (xor s t)
  | .finite s a b, .finite t c e =>
      let q := qmul ((FP.finite s a b).toQ fmt) ((FP.finite t c e).toQ fmt)
      if q.n = 0 then .finite (xor s t) 0 0 else roundQ fmt q

/-- IEEE-754 addition with round-to-nearest-even: an exact zero sum is
`+0.0` except when both addends are `-0.0`. -/
def fpadd (fmt : Fmt) (x y : FP) : FP :=
  match x, y with
  | .nan, _ => .nan
  | _, .nan => .nan
  | .inf s, .inf t => if s = t then .inf s else .nan
  | .inf s, _ => .inf s
  | _, .inf t => .inf t
  | .finite s a b, .finite t c e =>
      let q := qadd ((FP.finite s a b).toQ fmt) ((FP.finite t c e).toQ fmt)
      if q.n = 0 then
        if s && t && (FP.finite s a b).isZero && (FP.finite t c e).isZero
        then .finite true 0 0 else .finite false 0 0
      else roundQ fmt q

/-- IEEE-754 subtraction, as addition of the negation. -/
def fpsub (fmt : Fmt) (x y : FP) : FP := fpadd fmt x y.fneg

/-- IEEE-754 division with round-to-nearest-even (`x / ±0` is a signed
infinity, `0 / 0` and `∞ / ∞` are NaN). -/
def fpdiv (fmt : Fmt) (x y : FP) : FP :=
  match x, y with
  | .nan, _ => .nan
  | _, .nan => .nan
  | .inf _, .inf _ => .nan
  | .inf s, .finite t _ _ => .inf (xor s t)
  | .finite s _ _, .inf t => .finite (xor s t) 0 0
  | .finite s a b, .finite t c e =>
      if (FP.finite t c e).isZero then
        if (FP.finite s a b).isZero then .nan else .inf (xor s t)
      else if (FP.finite s a b).isZero then .finite (xor s t) 0 0
      else roundQ fmt (qdiv ((FP.finite s a b).toQ fmt) ((FP.finite t c e).toQ fmt))

/-- Rust float-to-integer `as` cast: truncate toward zero and saturate to
the target range `[lo, hi]`; NaN casts to 0. -/
def fpTruncSat (fmt : Fmt) (lo hi : ℤ) (x : FP) : ℤ :=
  match x with
  | .nan => 0
  | .inf s => if s then lo else hi
  | .finite s ex fr =>
      let q := (FP.finite s ex fr).toQ fmt
      let t : ℤ := (q.n / q.d : ℕ)
      max lo (min hi (if q.sg then -t else t))

/-- The bit pattern of an `f32` datum (`f32::to_bits`); the NaN produced by
the model is the canonical quiet NaN `0x7FC00000`. -/
def toBits32 : FP → ℕ
  | .finite s ex fr => (cond s 1 0) * 2 ^ 31 + ex * 2 ^ 23 + fr
  | .inf s => (cond s 1 0) * 2 ^ 31 + 255 * 2 ^ 23
  | .nan => 2139095040 + 4194304

/-- The `f32` datum of a bit pattern (`f32::from_bits`). -/
def fromBits32 (b : ℕ) : FP :=
  let b2 := b % 2 ^ 32
  let s := decide (2 ^ 31 ≤ b2)
  let ex := b2 / 2 ^ 23 % 2 ^ 8
  let fr := b2 % 2 ^ 23
  if ex = 255 then (if fr = 0 then .inf s else .nan) else .finite s ex fr

/-- Exact widening of an `f32` value to `f64` (`f64::from(f32)`): every
binary32 value is representable in binary64, so only the encoding changes. -/
def f32ToF64 : FP → FP
  | .nan => .nan
  | .inf s => .inf s
  | .finite s ex fr =>
      if ex = 0 ∧ fr = 0 then .finite s 0 0
      else
        let q := (FP.finite s ex fr).toQ fmt32
        if q.sg then (roundPosMag fmt64 q.n q.d).fneg else roundPosMag fmt64 q.n q.d

/-- Rust `as f32` narrowing of an `f64` value: round to nearest binary32
value, overflowing to the like-signed infinity; NaN stays NaN and signed
zeros keep their sign. -/
def f64ToF32 : FP → FP
  | .nan => .nan
  | .inf s => .inf s
  | .finite s ex fr =>
      if ex = 0 ∧ fr = 0 then .finite s 0 0
      else
        let q := (FP.finite s ex fr).toQ fmt64
        if q.sg then (roundPosMag fmt32 q.n q.d).fneg else roundPosMag fmt32 q.n q.d

/-! ## The model of `src/util.rs` -/

/-- `f32::MAX`, the largest finite binary32 value, `2^128 - 2^104`. -/
def f32MAX : FP := .finite false 254 (2 ^ 23 - 1)

/-- `f32::MIN`, the most negative finite binary32 value, `-(2^128 - 2^104)`. -/
def f32MIN : FP := .finite true 254 (2 ^ 23 - 1)

/-- `f64::MAX`, the largest finite binary64 value. -/
def f64MAX : FP := .finite false 2046 (2 ^ 52 - 1)

/-- `f64::MIN`, the most negative finite binary64 value. -/
def f64MIN : FP := .finite true 2046 (2 ^ 52 - 1)

/-- The lower clamp bound of the `f64` conversion: `f64::from(f32::MIN)`. -/
def f32MINasF64 : FP := f32ToF64 f32MIN

/-- The upper clamp bound of the `f64` conversion: `f64::from(f32::MAX)`. -/
def f32MAXasF64 : FP := f32ToF64 f32MAX

/-- Rust's `f64::clamp(self, min, max)` after its `assert!(min <= max)`:
if `self < min` take `min`, then if the result `> max` take `max`; a NaN
receiver passes through unchanged because both comparisons are false. -/
def f64clamp (x lo hi : FP) : FP :=
  let x1 := if fplt fmt64 x lo then lo else x
  if fpgt fmt64 x1 hi then hi else x1

/-- Rust's `f64::clamp` including its panic channel: `assert!(min <= max)`
fails (returns `none`) when the bounds are unordered or NaN. -/
def f64clampChecked (x lo hi : FP) : Option FP :=
  if fple fmt64 lo hi then some (f64clamp x lo hi) else none

/-- `<f64 as ToF32>::to_f32_lossy`:
`self.clamp(f64::from(f32::MIN), f64::from(f32::MAX)) as f32`. -/
def to_f32_lossy_f64 (x : FP) : FP := f64ToF32 (f64clamp x f32MINasF64 f32MAXasF64)

/-- The guard constant `f32::MAX as u32` of the `u32` conversion (the cast
saturates to `u32::MAX`). -/
def f32MAXasU32 : ℤ := fpTruncSat fmt32 0 (2 ^ 32 - 1) f32MAX

/-- `<u32 as ToF32>::to_f32_lossy`:
`if self > f32::MAX as u32 { f32::MAX } else { self as f32 }`. -/
def to_f32_lossy_u32 (n : ℕ) : FP :=
  if f32MAXasU32 < (n : ℤ) then f32MAX else intToFP fmt32 n

/-- The guard constant `f32::MAX as u64` (saturates to `u64::MAX`). -/
def f32MAXasU64 : ℤ := fpTruncSat fmt32 0 (2 ^ 64 - 1) f32MAX

/-- `<u64 as ToF32>::to_f32_lossy`:
`if self > f32::MAX as u64 { f32::MAX } else { self as f32 }`. -/
def to_f32_lossy_u64 (n : ℕ) : FP :=
  if f32MAXasU64 < (n : ℤ) then f32MAX else intToFP fmt32 n

/-- The guard constant `f32::MAX as i64` (saturates to `i64::MAX`). -/
def f32MAXasI64 : ℤ := fpTruncSat fmt32 (-(2 ^ 63)) (2 ^ 63 - 1) f32MAX

/-- `<i64 as ToF32>::to_f32_lossy`:
`if self > f32::MAX as i64 { f32::MAX } else { self as f32 }` (no lower
bound check). -/
def to_f32_lossy_i64 (z : ℤ) : FP :=
  if f32MAXasI64 < z then f32MAX else intToFP fmt32 z

/-- The guard constant `f32::MAX as u128`: `f32::MAX` is below `u128::MAX`,
so the cast is exact, `2^128 - 2^104`. -/
def f32MAXasU128 : ℤ := fpTruncSat fmt32 0 (2 ^ 128 - 1) f32MAX

/-- `<u128 as ToF32>::to_f32_lossy`:
`if self > f32::MAX as u128 { f32::MAX } else { self as f32 }`. -/
def to_f32_lossy_u128 (n : ℕ) : FP :=
  if f32MAXasU128 < (n : ℤ) then f32MAX else intToFP fmt32 n

/-- The guard constant `f32::MAX as usize` on a 64-bit platform
(saturates to `usize::MAX`). -/
def f32MAXasUsize : ℤ := fpTruncSat fmt32 0 (2 ^ 64 - 1) f32MAX

/-- `<usize as ToF32>::to_f32_lossy` on a 64-bit platform (`usize` is
platform-width; this model fixes the common 64-bit width):
`if self > f32::MAX as usize { f32::MAX } else { self as f32 }`. -/
def to_f32_lossy_usize (n : ℕ) : FP :=
  if f32MAXasUsize < (n : ℤ) then f32MAX else intToFP fmt32 n

/-- The constant `DB_TO_VOLTAGE: f32 = 0.05`. -/
def DB_TO_VOLTAGE : FP := litQ fmt32 5 100

/-- The constant `VOLTAGE_TO_DB: f32 = 20.0`. -/
def VOLTAGE_TO_DB : FP := litQ fmt32 20 1

/-- The constant `UNITY_GAIN: f32 = 1.0`. -/
def UNITY_GAIN : FP := litQ fmt32 1 1

/-- The constant `ZERO_DB: f32 = 0.0`. -/
def ZERO_DB : FP := litQ fmt32 0 1

/-- `std::f32::consts::LOG2_10`, the `f32` literal
`3.32192809488736234787031942948939`. -/
def LOG2_10 : FP := litQ fmt32 332192809488736234787031942948939 (10 ^ 32)

/-- `std::f32::consts::LOG10_2`, the `f32` literal
`0.301029995663981195213738894724493`. -/
def LOG10_2 : FP := litQ fmt32 301029995663981195213738894724493 (10 ^ 33)

/-- Modelled from the spec: the crate `fastapprox` is an external numeric
library whose sources are not part of this repository; the spec describes
its primitives as bit-manipulation-based single-precision approximations.
This is `fastapprox::fast::pow2` (Paul Mineiro's `fastpow2`), computed step
by step in exact binary32 arithmetic:
`offset = if p < 0 { 1.0 } else { 0.0 }`,
`clipp = if p < -126.0 { -126.0 } else { p }`, `w = clipp as i32`,
`z = clipp - w as f32 + offset`, and the result reinterprets the bits
`(2^23 * (clipp + 121.2740575 + 27.7280233 / (4.84252568 - z)
- 1.49012907 * z)) as u32` as an `f32`. -/
def fastPow2 (p : FP) : FP :=
  let offset := if fplt fmt32 p (litQ fmt32 0 1) then litQ fmt32 1 1 else litQ fmt32 0 1
  let clipp := if fplt fmt32 p (litQ fmt32 (-126) 1) then litQ fmt32 (-126) 1 else p
  let w : ℤ := fpTruncSat fmt32 (-(2 ^ 31)) (2 ^ 31 - 1) clipp
  let z := fpadd fmt32 (fpsub fmt32 clipp (intToFP fmt32 w)) offset
  let inner := fpmul fmt32 (intToFP fmt32 (2 ^ 23))
      (fpsub fmt32
        (fpadd fmt32 (fpadd fmt32 clipp (litQ fmt32 1212740575 (10 ^ 7)))
          (fpdiv fmt32 (litQ fmt32 277280233 (10 ^ 7))
            (fpsub fmt32 (litQ fmt32 484252568 (10 ^ 8)) z)))
        (fpmul fmt32 (litQ fmt32 149012907 (10 ^ 8)) z))
  fromBits32 (fpTruncSat fmt32 0 (2 ^ 32 - 1) inner).toNat

/-- Modelled from the spec: `fastapprox::fast::log2` (Paul Mineiro's
`fastlog2`), the bit-manipulation-based single-precision base-2 logarithm:
`vx = x.to_bits()`, `mx = f32::from_bits((vx & 0x007FFFFF) | 0x3f000000)`,
`y = vx as f32 * 1.1920928955078125e-7` and the result is
`y - 124.22551499 - 1.498030302 * mx - 1.72587999 / (0.3520887068 + mx)`. -/
def fastLog2 (x : FP) : FP :=
  let vx := toBits32 x
  let mx := fromBits32 (vx % 2 ^ 23 + 1056964608)
  let y := fpmul fmt32 (intToFP fmt32 vx) (litQ fmt32 1 (2 ^ 23))
  fpsub fmt32
    (fpsub fmt32 (fpsub fmt32 y (litQ fmt32 12422551499 (10 ^ 8)))
      (fpmul fmt32 (litQ fmt32 1498030302 (10 ^ 9)) mx))
    (fpdiv fmt32 (litQ fmt32 172587999 (10 ^ 8)) (fpadd fmt32 (litQ fmt32 3520887068 (10 ^ 10)) mx))

/-- `pub fn db_to_ratio(db: f32) -> f32`:
`fastapprox::fast::pow2(db * DB_TO_VOLTAGE * LOG2_10)`. -/
def db_to_ratio (db : FP) : FP :=
  fastPow2 (fpmul fmt32 (fpmul fmt32 db DB_TO_VOLTAGE) LOG2_10)

/-- `pub fn ratio_to_db(ratio: f32) -> f32`:
`fastapprox::fast::log2(ratio) * LOG10_2 * VOLTAGE_TO_DB`. -/
def ratio_to_db (ratio : FP) : FP :=
  fpmul fmt32 (fpmul fmt32 (fastLog2 ratio) LOG10_2) VOLTAGE_TO_DB

/-! ## Supporting lemmas -/

theorem log2F_le (fuel n : ℕ) (h1 : 1 ≤ n) (hf : n < 2 ^ fuel) : 2 ^ log2F fuel n ≤ n := by
  induction fuel generalizing n with
  | zero => simp at hf; omega
  | succ f ih =>
    rw [log2F]
    split
    · rename_i h2
      have hlt : n / 2 < 2 ^ f := by
        rw [Nat.div_lt_iff_lt_mul (by omega)]
        calc n < 2 ^ (f + 1) := hf
        _ = 2 ^ f * 2 := by rw [Nat.pow_succ]
      have := ih (n / 2) (by omega) hlt
      calc 2 ^ (log2F f (n / 2) + 1) = 2 ^ log2F f (n / 2) * 2 := by rw [Nat.pow_succ]
      _ ≤ n / 2 * 2 := by omega
      _ ≤ n := Nat.div_mul_le_self n 2
    · rename_i h2
      simpa using h1

theorem lt_log2F (fuel n : ℕ) (hf : n < 2 ^ fuel) : n < 2 ^ (log2F fuel n + 1) := by
  induction fuel generalizing n with
  | zero =>
    have h0 : n = 0 := by simpa using hf
    subst h0
    decide
  | succ f ih =>
    rw [log2F]
    split
    · rename_i h2
      have hlt : n / 2 < 2 ^ f := by
        rw [Nat.div_lt_iff_lt_mul (by omega)]
        calc n < 2 ^ (f + 1) := hf
        _ = 2 ^ f * 2 := by rw [Nat.pow_succ]
      have := ih (n / 2) hlt
      rw [Nat.pow_succ]
      omega
    · rename_i h2
      simp only [Nat.pow_succ, Nat.pow_zero, Nat.one_mul]
      omega

theorem rheN_le {p q B : ℕ} (hq : 0 < q) (h : p ≤ B * q) : rheN p q ≤ B := by
  have hd : p / q ≤ B := by
    have := Nat.div_le_div_right (c := q) h
    rwa [Nat.mul_div_cancel _ hq] at this
  have hmod := Nat.div_add_mod p q
  have hstep : p / q = B → p % q = 0 := by
    intro he
    have hmul : q * (p / q) = B * q := by rw [he, Nat.mul_comm]
    omega
  unfold rheN
  split
  · exact hd
  · split
    · rename_i hlo hhi
      rcases Nat.lt_or_ge (p / q) B with hlt | hge
      · omega
      · have he : p / q = B := le_antisymm hd hge
        have := hstep he
        omega
    · split
      · exact hd
      · rename_i hlo hhi hodd
        rcases Nat.lt_or_ge (p / q) B with hlt | hge
        · omega
        · have he : p / q = B := le_antisymm hd hge
          have := hstep he
          omega

theorem qlog2N_ge_pow {n d : ℕ} (h1 : 1 ≤ n) (hd : 1 ≤ d)
    (hn : n < 2 ^ FUEL) (hdf : d < 2 ^ FUEL)
    {k : ℕ} (hk : (k : ℤ) ≤ qlog2N n d) : 2 ^ k * d ≤ n := by
  have hln := log2F_le FUEL n h1 hn
  have hld := lt_log2F FUEL d hdf
  simp only [qlog2N] at hk
  set ln := log2F FUEL n with hLn
  set ld := log2F FUEL d with hLd
  by_cases hc : ltPow2 n d ((ln : ℤ) - (ld : ℤ)) = true
  · rw [if_pos hc] at hk
    have hkn : k + (ld + 1) ≤ ln := by omega
    have hstrict : 2 ^ k * d < 2 ^ (k + (ld + 1)) := by
      rw [Nat.pow_add]
      exact mul_lt_mul_of_pos_left hld (by positivity)
    have hle : 2 ^ (k + (ld + 1)) ≤ 2 ^ ln := Nat.pow_le_pow_right (by omega) hkn
    omega
  · rw [if_neg hc] at hk
    have hcnn : (0 : ℤ) ≤ (ln : ℤ) - (ld : ℤ) := by omega
    simp only [ltPow2, if_pos hcnn, decide_eq_true_eq] at hc
    have hge : 2 ^ ((ln : ℤ) - (ld : ℤ)).toNat * d ≤ n := by omega
    have hkle : k ≤ ((ln : ℤ) - (ld : ℤ)).toNat := by omega
    calc 2 ^ k * d ≤ 2 ^ ((ln : ℤ) - (ld : ℤ)).toNat * d :=
          Nat.mul_le_mul_right _ (Nat.pow_le_pow_right (by omega) hkle)
    _ ≤ n := hge

theorem isFinite_fneg (x : FP) : x.fneg.isFinite = x.isFinite := by
  cases x <;> rfl

theorem roundPosMag_fin32 {n d : ℕ} (h1 : 1 ≤ n) (hd : 1 ≤ d)
    (hn : n < 2 ^ FUEL) (hdf : d < 2 ^ FUEL)
    (hb : n ≤ (2 ^ 128 - 2 ^ 104) * d) :
    (roundPosMag fmt32 n d).isFinite = true := by
  have he127 : qlog2N n d ≤ 127 := by
    by_contra hgt
    push_neg at hgt
    have h128 : ((128 : ℕ) : ℤ) ≤ qlog2N n d := by omega
    have hpow := qlog2N_ge_pow h1 hd hn hdf h128
    have hlt : (2 ^ 128 - 2 ^ 104) * d < 2 ^ 128 * d := by
      have h0 : (2 : ℕ) ^ 128 - 2 ^ 104 < 2 ^ 128 := by norm_num
      exact (Nat.mul_lt_mul_right (by omega)).mpr h0
    omega
  simp only [roundPosMag, fmt32]
  split
  · split <;> rfl
  · rename_i hge
    by_cases h127 : qlog2N n d ≤ 126
    · split <;> split <;> split <;> first | rfl | (rename_i hx; omega)
    · have he : qlog2N n d = 127 := by omega
      have ht : ¬ ((0 : ℤ) ≤ (23 : ℕ) - qlog2N n d) := by omega
      rw [if_neg ht]
      have htn : (-(((23 : ℕ) : ℤ) - qlog2N n d)).toNat = 104 := by omega
      rw [htn]
      have hm : rheN n (d * 2 ^ 104) ≤ 2 ^ 24 - 1 := by
        apply rheN_le (by positivity)
        calc n ≤ (2 ^ 128 - 2 ^ 104) * d := hb
        _ = (2 ^ 24 - 1) * 2 ^ 104 * d := by norm_num
        _ = (2 ^ 24 - 1) * (d * 2 ^ 104) := by ring
      have hne : ¬ (rheN n (d * 2 ^ 104) = 2 ^ (23 + 1)) := by
        intro hx
        rw [hx] at hm
        norm_num at hm
      rw [if_neg hne, if_neg hne]
      rw [if_neg (by omega : ¬ ((127 : ℕ) : ℤ) < qlog2N n d)]
      rfl

theorem lt_two_pow_FUEL {m : ℕ} (hm : m < 2 ^ 1200) : m < 2 ^ FUEL := by
  apply lt_of_lt_of_le hm
  apply Nat.pow_le_pow_right (by omega)
  unfold FUEL
  omega

theorem roundQ_fin32 {sg : Bool} {n d : ℕ} (hd : 1 ≤ d)
    (hn : n < 2 ^ FUEL) (hdf : d < 2 ^ FUEL)
    (hb : n ≤ (2 ^ 128 - 2 ^ 104) * d) :
    (roundQ fmt32 ⟨sg, n, d⟩).isFinite = true := by
  simp only [roundQ]
  by_cases h0 : n = 0
  · rw [if_pos h0]
    rfl
  · rw [if_neg h0]
    have hfin := roundPosMag_fin32 (by omega) hd hn hdf hb
    cases sg
    · simpa using hfin
    · simpa [isFinite_fneg] using hfin

theorem intToFP_fin32 {z : ℤ} (hz : z.natAbs ≤ 2 ^ 128 - 2 ^ 104) :
    (intToFP fmt32 z).isFinite = true := by
  apply roundQ_fin32 (by omega)
  · exact lt_two_pow_FUEL (by calc z.natAbs ≤ 2 ^ 128 - 2 ^ 104 := hz
      _ < 2 ^ 1200 := by norm_num)
  · exact lt_two_pow_FUEL (by norm_num)
  · simpa using hz

theorem natAbs_zn (a : Q) : a.zn.natAbs = a.n := by
  unfold Q.zn
  split <;> simp

theorem lossy_u32_fin (n : ℕ) (h : n ≤ 2 ^ 32 - 1) : (to_f32_lossy_u32 n).isFinite = true := by
  unfold to_f32_lossy_u32
  split
  · rfl
  · apply intToFP_fin32
    simp only [Int.natAbs_ofNat]
    have h2 : (2 : ℕ) ^ 32 - 1 ≤ 2 ^ 128 - 2 ^ 104 := by norm_num
    omega

theorem lossy_u64_fin (n : ℕ) (h : n ≤ 2 ^ 64 - 1) : (to_f32_lossy_u64 n).isFinite = true := by
  unfold to_f32_lossy_u64
  split
  · rfl
  · apply intToFP_fin32
    simp only [Int.natAbs_ofNat]
    have h2 : (2 : ℕ) ^ 64 - 1 ≤ 2 ^ 128 - 2 ^ 104 := by norm_num
    omega

theorem lossy_usize_fin (n : ℕ) (h : n ≤ 2 ^ 64 - 1) : (to_f32_lossy_usize n).isFinite = true := by
  unfold to_f32_lossy_usize
  split
  · rfl
  · apply intToFP_fin32
    simp only [Int.natAbs_ofNat]
    have h2 : (2 : ℕ) ^ 64 - 1 ≤ 2 ^ 128 - 2 ^ 104 := by norm_num
    omega

theorem lossy_i64_fin (z : ℤ) (hlo : -(2 ^ 63) ≤ z) (hhi : z ≤ 2 ^ 63 - 1) :
    (to_f32_lossy_i64 z).isFinite = true := by
  unfold to_f32_lossy_i64
  split
  · rfl
  · apply intToFP_fin32
    have h1 : z.natAbs ≤ 2 ^ 63 := by omega
    have h2 : (2 : ℕ) ^ 63 ≤ 2 ^ 128 - 2 ^ 104 := by norm_num
    omega

theorem lossy_u128_fin (n : ℕ) : (to_f32_lossy_u128 n).isFinite = true := by
  unfold to_f32_lossy_u128
  split
  · rfl
  · rename_i hng
    push_neg at hng
    have hc : f32MAXasU128 = 2 ^ 128 - 2 ^ 104 := by decide
    rw [hc] at hng
    apply intToFP_fin32
    simp only [Int.natAbs_ofNat]
    have h2 : ((2 : ℤ) ^ 128 - 2 ^ 104) = ((2 ^ 128 - 2 ^ 104 : ℕ) : ℤ) := by norm_num
    omega

theorem toQ64_n_pos {s : Bool} {ex fr : ℕ} (hz : ¬ (ex = 0 ∧ fr = 0)) :
    1 ≤ ((FP.finite s ex fr).toQ fmt64).n := by
  simp only [FP.toQ, fmt64]
  split
  · rename_i h0
    have h : fr ≠ 0 := fun hfr => hz ⟨h0, hfr⟩
    show 1 ≤ fr
    omega
  · split
    · show 1 ≤ (2 ^ 52 + fr) * 2 ^ (ex - (1023 + 52))
      have h2 : 1 ≤ 2 ^ (ex - (1023 + 52)) := Nat.one_le_two_pow
      calc 1 = 1 * 1 := rfl
      _ ≤ (2 ^ 52 + fr) * 2 ^ (ex - (1023 + 52)) := Nat.mul_le_mul (by omega) h2
    · show 1 ≤ 2 ^ 52 + fr
      omega

theorem toQ64_bounds {s : Bool} {ex fr : ℕ} (hex : ex ≤ 2046) (hfr : fr < 2 ^ 52) :
    1 ≤ ((FP.finite s ex fr).toQ fmt64).d ∧ ((FP.finite s ex fr).toQ fmt64).d < 2 ^ 1200 ∧
      ((FP.finite s ex fr).toQ fmt64).n < 2 ^ 1200 := by
  simp only [FP.toQ, fmt64]
  split
  · refine ⟨?_, ?_, ?_⟩
    · show 1 ≤ 2 ^ (1023 + 52 - 1)
      exact Nat.one_le_two_pow
    · show 2 ^ (1023 + 52 - 1) < 2 ^ 1200
      norm_num
    · show fr < 2 ^ 1200
      have h1 : (2 : ℕ) ^ 52 < 2 ^ 1200 := by norm_num
      omega
  · split
    · refine ⟨?_, ?_, ?_⟩
      · show 1 ≤ 1
        exact le_refl 1
      · show 1 < 2 ^ 1200
        norm_num
      · show (2 ^ 52 + fr) * 2 ^ (ex - (1023 + 52)) < 2 ^ 1200
        have h1 : 2 ^ 52 + fr ≤ 2 ^ 53 := by omega
        have h2 : ex - (1023 + 52) ≤ 971 := by omega
        calc (2 ^ 52 + fr) * 2 ^ (ex - (1023 + 52)) ≤ 2 ^ 53 * 2 ^ 971 :=
              Nat.mul_le_mul h1 (Nat.pow_le_pow_right (by omega) h2)
        _ < 2 ^ 1200 := by norm_num
    · refine ⟨?_, ?_, ?_⟩
      · show 1 ≤ 2 ^ (1023 + 52 - ex)
        exact Nat.one_le_two_pow
      · show 2 ^ (1023 + 52 - ex) < 2 ^ 1200
        calc 2 ^ (1023 + 52 - ex) ≤ 2 ^ 1074 := Nat.pow_le_pow_right (by omega) (by omega)
        _ < 2 ^ 1200 := by norm_num
      · show 2 ^ 52 + fr < 2 ^ 1200
        have h1 : (2 : ℕ) ^ 53 < 2 ^ 1200 := by norm_num
        omega

theorem clamp_bound_of_in_range {s : Bool} {ex fr : ℕ}
    (h1 : ¬ fplt fmt64 (FP.finite s ex fr) f32MINasF64 = true)
    (h2 : ¬ fpgt fmt64 (FP.finite s ex fr) f32MAXasF64 = true) :
    ((FP.finite s ex fr).toQ fmt64).n ≤
      (2 ^ 128 - 2 ^ 104) * ((FP.finite s ex fr).toQ fmt64).d := by
  have e1 : f32MINasF64 = FP.finite true 1150 (2 ^ 52 - 2 ^ 29) := by decide
  have e2 : f32MAXasF64 = FP.finite false 1150 (2 ^ 52 - 2 ^ 29) := by decide
  rw [e1] at h1
  rw [fpgt, e2] at h2
  have hq1 : FP.toQ fmt64 (FP.finite true 1150 (2 ^ 52 - 2 ^ 29)) =
      ⟨true, 2 ^ 128 - 2 ^ 104, 1⟩ := by decide
  have hq2 : FP.toQ fmt64 (FP.finite false 1150 (2 ^ 52 - 2 ^ 29)) =
      ⟨false, 2 ^ 128 - 2 ^ 104, 1⟩ := by decide
  simp only [fplt, decide_eq_true_eq, not_lt, hq1, hq2] at h1 h2
  simp only [Q.zn, if_pos, if_neg] at h1 h2
  have hz1 : -(((2 : ℕ) ^ 128 - 2 ^ 104 : ℕ) : ℤ) * ((FP.finite s ex fr).toQ fmt64).d ≤
      ((FP.finite s ex fr).toQ fmt64).zn * 1 := by simpa using h1
  have hz2 : ((FP.finite s ex fr).toQ fmt64).zn * 1 ≤
      (((2 : ℕ) ^ 128 - 2 ^ 104 : ℕ) : ℤ) * ((FP.finite s ex fr).toQ fmt64).d := by
    simpa using h2
  have hna := natAbs_zn ((FP.finite s ex fr).toQ fmt64)
  omega

theorem lossy_f64_fin {x : FP} (hw : WfB fmt64 x = true) (hf : x.isFinite = true) :
    (to_f32_lossy_f64 x).isFinite = true := by
  cases x with
  | nan => simp [FP.isFinite] at hf
  | inf s => simp [FP.isFinite] at hf
  | finite s ex fr =>
    have hwf : ex ≤ 2046 ∧ fr < 2 ^ 52 := by
      simpa [WfB, fmt64] using hw
    simp only [to_f32_lossy_f64, f64clamp]
    by_cases h1 : fplt fmt64 (FP.finite s ex fr) f32MINasF64 = true
    · rw [if_pos h1]
      decide
    · rw [if_neg h1]
      by_cases h2 : fpgt fmt64 (FP.finite s ex fr) f32MAXasF64 = true
      · rw [if_pos h2]
        decide
      · rw [if_neg h2]
        simp only [f64ToF32]
        by_cases hz : ex = 0 ∧ fr = 0
        · rw [if_pos hz]
          rfl
        · rw [if_neg hz]
          obtain ⟨hd1, hd2, hn2⟩ := toQ64_bounds (s := s) hwf.1 hwf.2
          have hb := clamp_bound_of_in_range h1 h2
          split
          · rw [isFinite_fneg]
            exact roundPosMag_fin32 (toQ64_n_pos hz) hd1 (lt_two_pow_FUEL hn2)
              (lt_two_pow_FUEL hd2) hb
          · exact roundPosMag_fin32 (toQ64_n_pos hz) hd1 (lt_two_pow_FUEL hn2)
              (lt_two_pow_FUEL hd2) hb

theorem isNaN_false_of_isFinite {x : FP} (h : x.isFinite = true) : x.isNaN = false := by
  cases x <;> simp [FP.isFinite, FP.isNaN] at h ⊢

/-! ## Claim theorems -/

/-- C1: the spec (like the code's own doc examples,
`assert!(clamped == f32::MAX)` for `u32::MAX`, `u64::MAX`, `i64::MAX`,
`usize::MAX`) claims every source type's maximum converts exactly to
`f32::MAX`, and `i64::MIN`/`f64::MIN` to `f32::MIN`.  The code disagrees
for the integer types whose guard constant `f32::MAX as <int>` saturates to
the source type's own maximum, making the guard dead: `u32::MAX` converts
to `2^32` (the value `FP.finite false 159 0`, about `4.29e9`, far from
`f32::MAX ≈ 3.4e38`), `u64::MAX` and `usize::MAX` to `2^64`, `i64::MAX` to
`2^63`, and `i64::MIN` to `-2^63` (not `f32::MIN`).  Only the `u128` and
`f64` sources behave as documented.  The conversion code thus contradicts
its own documentation (its doc tests fail); this theorem evaluates the
code at the failing inputs and at the agreeing ones. -/
theorem max_value_conversion_eval :
    to_f32_lossy_u32 (2 ^ 32 - 1) = FP.finite false 159 0
    ∧ FP.toRat fmt32 (FP.finite false 159 0) = 2 ^ 32
    ∧ to_f32_lossy_u32 (2 ^ 32 - 1) ≠ f32MAX
    ∧ to_f32_lossy_u64 (2 ^ 64 - 1) ≠ f32MAX
    ∧ to_f32_lossy_usize (2 ^ 64 - 1) ≠ f32MAX
    ∧ to_f32_lossy_i64 (2 ^ 63 - 1) ≠ f32MAX
    ∧ to_f32_lossy_i64 (-(2 ^ 63)) ≠ f32MIN
    ∧ to_f32_lossy_u128 (2 ^ 128 - 1) = f32MAX
    ∧ to_f32_lossy_f64 f64MAX = f32MAX
    ∧ to_f32_lossy_f64 f64MIN = f32MIN := by
  refine ⟨by decide, ?_, by decide, by decide, by decide, by decide, by decide, by decide,
    by decide, by decide⟩
  norm_num [FP.toRat, FP.toQ, fmt32, Q.zn]

/-- C2: for every value in the domain of each source type (every finite
well-formed value in the `f64` case), `to_f32_lossy` returns a finite
value: never an infinity and never NaN. -/
theorem to_f32_lossy_never_inf_nan :
    (∀ n : ℕ, n ≤ 2 ^ 32 - 1 →
      (to_f32_lossy_u32 n).isFinite = true ∧ (to_f32_lossy_u32 n).isNaN = false)
    ∧ (∀ n : ℕ, n ≤ 2 ^ 64 - 1 →
      (to_f32_lossy_u64 n).isFinite = true ∧ (to_f32_lossy_u64 n).isNaN = false)
    ∧ (∀ z : ℤ, -(2 ^ 63) ≤ z → z ≤ 2 ^ 63 - 1 →
      (to_f32_lossy_i64 z).isFinite = true ∧ (to_f32_lossy_i64 z).isNaN = false)
    ∧ (∀ n : ℕ, n ≤ 2 ^ 128 - 1 →
      (to_f32_lossy_u128 n).isFinite = true ∧ (to_f32_lossy_u128 n).isNaN = false)
    ∧ (∀ n : ℕ, n ≤ 2 ^ 64 - 1 →
      (to_f32_lossy_usize n).isFinite = true ∧ (to_f32_lossy_usize n).isNaN = false)
    ∧ (∀ x : FP, WfB fmt64 x = true → x.isFinite = true →
      (to_f32_lossy_f64 x).isFinite = true ∧ (to_f32_lossy_f64 x).isNaN = false) := by
  refine ⟨fun n h => ?_, fun n h => ?_, fun z h1 h2 => ?_, fun n h => ?_, fun n h => ?_,
    fun x hw hf => ?_⟩
  · exact ⟨lossy_u32_fin n h, isNaN_false_of_isFinite (lossy_u32_fin n h)⟩
  · exact ⟨lossy_u64_fin n h, isNaN_false_of_isFinite (lossy_u64_fin n h)⟩
  · exact ⟨lossy_i64_fin z h1 h2, isNaN_false_of_isFinite (lossy_i64_fin z h1 h2)⟩
  · exact ⟨lossy_u128_fin n, isNaN_false_of_isFinite (lossy_u128_fin n)⟩
  · exact ⟨lossy_usize_fin n h, isNaN_false_of_isFinite (lossy_usize_fin n h)⟩
  · exact ⟨lossy_f64_fin hw hf, isNaN_false_of_isFinite (lossy_f64_fin hw hf)⟩

/-- Witness for C2: the bounds hold and the conclusion is checked at the
extreme inputs `u32::MAX`, `i64::MIN` and `f64::MIN`. -/
theorem to_f32_lossy_never_inf_nan_witness :
    (to_f32_lossy_u32 (2 ^ 32 - 1)).isFinite = true
    ∧ (to_f32_lossy_i64 (-(2 ^ 63))).isFinite = true
    ∧ (to_f32_lossy_f64 (FP.finite true 2046 (2 ^ 52 - 1))).isFinite = true :=
  ⟨(to_f32_lossy_never_inf_nan.1 (2 ^ 32 - 1) (by decide)).1,
   (to_f32_lossy_never_inf_nan.2.2.1 (-(2 ^ 63)) (by decide) (by decide)).1,
   (to_f32_lossy_never_inf_nan.2.2.2.2.2 (FP.finite true 2046 (2 ^ 52 - 1))
     (by decide) (by decide)).1⟩

/-- C3: the `f64` conversion clamps to
`[f64::from(f32::MIN), f64::from(f32::MAX)]` and only then narrows; in
particular the double 1e308 converts to `f32::MAX`, whereas narrowing
1e308 directly (without the clamp) would give positive infinity. -/
theorem f64_conversion_clamps_then_narrows :
    (∀ x : FP, to_f32_lossy_f64 x = f64ToF32 (f64clamp x f32MINasF64 f32MAXasF64))
    ∧ to_f32_lossy_f64 (roundQ fmt64 ⟨false, 10 ^ 308, 1⟩) = f32MAX
    ∧ f64ToF32 (roundQ fmt64 ⟨false, 10 ^ 308, 1⟩) = FP.inf false
    ∧ f32MAX ≠ FP.inf false :=
  ⟨fun _ => rfl, by decide, by decide, by decide⟩

/-- Witness for C3 at the input `f64::MAX`. -/
theorem f64_conversion_clamps_then_narrows_witness :
    to_f32_lossy_f64 f64MAX = f64ToF32 (f64clamp f64MAX f32MINasF64 f32MAXasF64) :=
  f64_conversion_clamps_then_narrows.1 f64MAX

/-- C4: every source type converts zero to exactly `+0.0f32` (whose exact
value is the rational 0). -/
theorem zero_converts_to_zero :
    to_f32_lossy_f64 (FP.finite false 0 0) = FP.finite false 0 0
    ∧ to_f32_lossy_u32 0 = FP.finite false 0 0
    ∧ to_f32_lossy_u64 0 = FP.finite false 0 0
    ∧ to_f32_lossy_i64 0 = FP.finite false 0 0
    ∧ to_f32_lossy_u128 0 = FP.finite false 0 0
    ∧ to_f32_lossy_usize 0 = FP.finite false 0 0
    ∧ FP.toRat fmt32 (FP.finite false 0 0) = 0 := by
  refine ⟨by decide, by decide, by decide, by decide, by decide, by decide, ?_⟩
  simp [FP.toRat, FP.toQ, Q.zn]

/-- C9: `f64::clamp` propagates a NaN receiver unchanged (both of its
comparisons are false on NaN), so `to_f32_lossy` of a NaN double is NaN:
the never-NaN postcondition does not extend to NaN input. -/
theorem nan_input_returns_nan :
    to_f32_lossy_f64 FP.nan = FP.nan
    ∧ (to_f32_lossy_f64 FP.nan).isNaN = true
    ∧ (to_f32_lossy_f64 FP.nan).isFinite = false := by decide

/-- C10: for the `u32`, `u64`, `i64` and `usize` sources the guard constant
`f32::MAX as <int>` saturates to the source type's own maximum, so the
guard is dead: every in-range input (every non-negative input for `i64`)
takes the `self as f32` branch, the plain round-to-nearest conversion.
Only the `u128` guard constant is below the type maximum, so only there is
the `f32::MAX` branch reachable (e.g. at `u128::MAX`). -/
theorem dead_clamp_invariant :
    f32MAXasU32 = 2 ^ 32 - 1
    ∧ f32MAXasU64 = 2 ^ 64 - 1
    ∧ f32MAXasI64 = 2 ^ 63 - 1
    ∧ f32MAXasUsize = 2 ^ 64 - 1
    ∧ (∀ n : ℕ, n ≤ 2 ^ 32 - 1 → to_f32_lossy_u32 n = intToFP fmt32 n)
    ∧ (∀ n : ℕ, n ≤ 2 ^ 64 - 1 → to_f32_lossy_u64 n = intToFP fmt32 n)
    ∧ (∀ z : ℤ, 0 ≤ z → z ≤ 2 ^ 63 - 1 → to_f32_lossy_i64 z = intToFP fmt32 z)
    ∧ (∀ n : ℕ, n ≤ 2 ^ 64 - 1 → to_f32_lossy_usize n = intToFP fmt32 n)
    ∧ f32MAXasU128 = 2 ^ 128 - 2 ^ 104
    ∧ f32MAXasU128 < 2 ^ 128 - 1
    ∧ to_f32_lossy_u128 (2 ^ 128 - 1) = f32MAX := by
  have hu32 : f32MAXasU32 = 2 ^ 32 - 1 := by decide
  have hu64 : f32MAXasU64 = 2 ^ 64 - 1 := by decide
  have hi64 : f32MAXasI64 = 2 ^ 63 - 1 := by decide
  have husize : f32MAXasUsize = 2 ^ 64 - 1 := by decide
  refine ⟨hu32, hu64, hi64, husize, ?_, ?_, ?_, ?_, by decide, by decide, by decide⟩
  · intro n h
    unfold to_f32_lossy_u32
    rw [if_neg (by rw [hu32]; omega)]
  · intro n h
    unfold to_f32_lossy_u64
    rw [if_neg (by rw [hu64]; omega)]
  · intro z h0 h
    unfold to_f32_lossy_i64
    rw [if_neg (by rw [hi64]; omega)]
  · intro n h
    unfold to_f32_lossy_usize
    rw [if_neg (by rw [husize]; omega)]

/-- Witness for C10: the guard-free equality checked at small inputs. -/
theorem dead_clamp_invariant_witness :
    to_f32_lossy_u32 7 = intToFP fmt32 7 ∧ to_f32_lossy_i64 5 = intToFP fmt32 5 :=
  ⟨dead_clamp_invariant.2.2.2.2.1 7 (by decide),
   dead_clamp_invariant.2.2.2.2.2.2.1 5 (by decide) (by decide)⟩

/-- C5 counterexample: the claim that every positive finite db gives a
ratio strictly above 1 and every negative finite db a ratio strictly
between 0 and 1 fails at the smallest-magnitude subnormals: for
`db = ±2^-149` the product `db * 0.05 * LOG2_10` underflows to zero and
`db_to_ratio` returns exactly 1.0, which is neither above nor below 1. -/
theorem db_to_ratio_strictness_counterexample :
    (FP.finite false 0 1).isFinite = true
    ∧ 0 < FP.toRat fmt32 (FP.finite false 0 1)
    ∧ ¬ 1 < FP.toRat fmt32 (db_to_ratio (FP.finite false 0 1))
    ∧ (FP.finite true 0 1).isFinite = true
    ∧ FP.toRat fmt32 (FP.finite true 0 1) < 0
    ∧ ¬ FP.toRat fmt32 (db_to_ratio (FP.finite true 0 1)) < 1 := by
  have h1 : db_to_ratio (FP.finite false 0 1) = FP.finite false 127 0 := by decide
  have h2 : db_to_ratio (FP.finite true 0 1) = FP.finite false 127 0 := by decide
  refine ⟨by decide, ?_, ?_, by decide, ?_, ?_⟩
  · norm_num [FP.toRat, FP.toQ, fmt32, Q.zn]
  · rw [h1]
    norm_num [FP.toRat, FP.toQ, fmt32, Q.zn]
  · norm_num [FP.toRat, FP.toQ, fmt32, Q.zn]
  · rw [h2]
    norm_num [FP.toRat, FP.toQ, fmt32, Q.zn]

/-- C5 (amended): `db_to_ratio db` computes
`fastapprox::fast::pow2(db * 0.05 * LOG2_10)`; at 0 dB it returns exactly
1.0 (well within the 0.01 percent approximation tolerance), representative
positive decibel values (6, 20, 100) give ratios strictly above 1, and
representative negative values (-6, -60, -100) give ratios strictly
between 0 and 1.  (The original universally quantified strict inequalities
fail for tiny |db|, where the approximation returns exactly 1.0.) -/
theorem db_to_ratio_amended :
    (∀ db : FP, db_to_ratio db = fastPow2 (fpmul fmt32 (fpmul fmt32 db DB_TO_VOLTAGE) LOG2_10))
    ∧ db_to_ratio ZERO_DB = UNITY_GAIN
    ∧ |FP.toRat fmt32 (db_to_ratio ZERO_DB) - 1| ≤ 1 / 10000
    ∧ 1 < FP.toRat fmt32 (db_to_ratio (intToFP fmt32 6))
    ∧ 1 < FP.toRat fmt32 (db_to_ratio (intToFP fmt32 20))
    ∧ 1 < FP.toRat fmt32 (db_to_ratio (intToFP fmt32 100))
    ∧ 0 < FP.toRat fmt32 (db_to_ratio (intToFP fmt32 (-6)))
    ∧ FP.toRat fmt32 (db_to_ratio (intToFP fmt32 (-6))) < 1
    ∧ 0 < FP.toRat fmt32 (db_to_ratio (intToFP fmt32 (-60)))
    ∧ FP.toRat fmt32 (db_to_ratio (intToFP fmt32 (-60))) < 1
    ∧ 0 < FP.toRat fmt32 (db_to_ratio (intToFP fmt32 (-100)))
    ∧ FP.toRat fmt32 (db_to_ratio (intToFP fmt32 (-100))) < 1 := by
  have h0 : db_to_ratio ZERO_DB = FP.finite false 127 0 := by decide
  have h6 : db_to_ratio (intToFP fmt32 6) = FP.finite false 127 8349056 := by decide
  have h20 : db_to_ratio (intToFP fmt32 20) = FP.finite false 130 2096896 := by decide
  have h100 : db_to_ratio (intToFP fmt32 100) = FP.finite false 143 4411264 := by decide
  have hm6 : db_to_ratio (intToFP fmt32 (-6)) = FP.finite false 126 19840 := by decide
  have hm60 : db_to_ratio (intToFP fmt32 (-60)) = FP.finite false 117 201088 := by decide
  have hm100 : db_to_ratio (intToFP fmt32 (-100)) = FP.finite false 110 2606464 := by decide
  refine ⟨fun _ => rfl, by decide, ?_, ?_, ?_, ?_, ?_, ?_, ?_, ?_, ?_, ?_⟩
  · rw [h0]
    norm_num [FP.toRat, FP.toQ, fmt32, Q.zn]
  · rw [h6]
    norm_num [FP.toRat, FP.toQ, fmt32, Q.zn]
  · rw [h20]
    norm_num [FP.toRat, FP.toQ, fmt32, Q.zn]
  · rw [h100]
    norm_num [FP.toRat, FP.toQ, fmt32, Q.zn]
  · rw [hm6]
    norm_num [FP.toRat, FP.toQ, fmt32, Q.zn]
  · rw [hm6]
    norm_num [FP.toRat, FP.toQ, fmt32, Q.zn]
  · rw [hm60]
    norm_num [FP.toRat, FP.toQ, fmt32, Q.zn]
  · rw [hm60]
    norm_num [FP.toRat, FP.toQ, fmt32, Q.zn]
  · rw [hm100]
    norm_num [FP.toRat, FP.toQ, fmt32, Q.zn]
  · rw [hm100]
    norm_num [FP.toRat, FP.toQ, fmt32, Q.zn]

/-- Witness for C5 at a concrete decibel input. -/
theorem db_to_ratio_amended_witness :
    db_to_ratio UNITY_GAIN =
      fastPow2 (fpmul fmt32 (fpmul fmt32 UNITY_GAIN DB_TO_VOLTAGE) LOG2_10) :=
  db_to_ratio_amended.1 UNITY_GAIN

/-- C6: the round trip `ratio_to_db (db_to_ratio db)` at the
representative decibel values -60, -6, 0, 6 and 20 returns the input to
within 0.01 percent relative error (absolute tolerance 0.001 dB at 0). -/
theorem round_trip_representative :
    |FP.toRat fmt32 (ratio_to_db (db_to_ratio (intToFP fmt32 (-60)))) - (-60)| ≤ 60 / 10000
    ∧ |FP.toRat fmt32 (ratio_to_db (db_to_ratio (intToFP fmt32 (-6)))) - (-6)| ≤ 6 / 10000
    ∧ |FP.toRat fmt32 (ratio_to_db (db_to_ratio ZERO_DB)) - 0| ≤ 1 / 1000
    ∧ |FP.toRat fmt32 (ratio_to_db (db_to_ratio (intToFP fmt32 6))) - 6| ≤ 6 / 10000
    ∧ |FP.toRat fmt32 (ratio_to_db (db_to_ratio (intToFP fmt32 20))) - 20| ≤ 20 / 10000 := by
  have hm60 : ratio_to_db (db_to_ratio (intToFP fmt32 (-60))) = FP.finite true 132 7340200 := by
    decide
  have hm6 : ratio_to_db (db_to_ratio (intToFP fmt32 (-6))) = FP.finite true 129 4194598 := by
    decide
  have h0 : ratio_to_db (db_to_ratio ZERO_DB) = FP.finite true 110 7394034 := by decide
  have h6 : ratio_to_db (db_to_ratio (intToFP fmt32 6)) = FP.finite false 129 4194384 := by
    decide
  have h20 : ratio_to_db (db_to_ratio (intToFP fmt32 20)) = FP.finite false 131 2096841 := by
    decide
  refine ⟨?_, ?_, ?_, ?_, ?_⟩
  · rw [hm60, abs_le]
    constructor <;> norm_num [FP.toRat, FP.toQ, fmt32, Q.zn]
  · rw [hm6, abs_le]
    constructor <;> norm_num [FP.toRat, FP.toQ, fmt32, Q.zn]
  · rw [h0, abs_le]
    constructor <;> norm_num [FP.toRat, FP.toQ, fmt32, Q.zn]
  · rw [h6, abs_le]
    constructor <;> norm_num [FP.toRat, FP.toQ, fmt32, Q.zn]
  · rw [h20, abs_le]
    constructor <;> norm_num [FP.toRat, FP.toQ, fmt32, Q.zn]

/-- C7 counterexample: neither function is strictly increasing on the
claimed ranges.  The two distinct `f32` values 1e-30 < 2e-30 (both far
inside [-100, 100]) have equal `db_to_ratio` images (the approximation is
flat there, returning exactly 1.0), and the two adjacent `f32` values just
above 0.00195 (inside [0.001, 1000]) have equal `ratio_to_db` images. -/
theorem strict_monotonicity_counterexample :
    fplt fmt32 (intToFP fmt32 (-100)) (litQ fmt32 1 (10 ^ 30)) = true
    ∧ fplt fmt32 (litQ fmt32 1 (10 ^ 30)) (litQ fmt32 2 (10 ^ 30)) = true
    ∧ fplt fmt32 (litQ fmt32 2 (10 ^ 30)) (intToFP fmt32 100) = true
    ∧ litQ fmt32 1 (10 ^ 30) ≠ litQ fmt32 2 (10 ^ 30)
    ∧ db_to_ratio (litQ fmt32 1 (10 ^ 30)) = db_to_ratio (litQ fmt32 2 (10 ^ 30))
    ∧ fplt fmt32 (litQ fmt32 1 1000) (FP.finite false 118 1) = true
    ∧ fplt fmt32 (FP.finite false 118 1) (FP.finite false 118 2) = true
    ∧ fplt fmt32 (FP.finite false 118 2) (litQ fmt32 1000 1) = true
    ∧ ratio_to_db (FP.finite false 118 1) = ratio_to_db (FP.finite false 118 2) := by
  decide

/-- C7 (amended): `db_to_ratio` is strictly increasing across the
representative grid -100 < -60 < -6 < 0 < 6 < 20 < 100 dB, and
`ratio_to_db` is strictly increasing across the representative positive
ratios 0.001 < 0.5 < 1 < 2 < 1000 (IEEE `<` on the `f32` results).  (Strict
monotonicity over the full ranges fails: the approximations have flat
spots, see the counterexample.) -/
theorem monotone_on_representative_grid :
    fplt fmt32 (db_to_ratio (intToFP fmt32 (-100))) (db_to_ratio (intToFP fmt32 (-60))) = true
    ∧ fplt fmt32 (db_to_ratio (intToFP fmt32 (-60))) (db_to_ratio (intToFP fmt32 (-6))) = true
    ∧ fplt fmt32 (db_to_ratio (intToFP fmt32 (-6))) (db_to_ratio ZERO_DB) = true
    ∧ fplt fmt32 (db_to_ratio ZERO_DB) (db_to_ratio (intToFP fmt32 6)) = true
    ∧ fplt fmt32 (db_to_ratio (intToFP fmt32 6)) (db_to_ratio (intToFP fmt32 20)) = true
    ∧ fplt fmt32 (db_to_ratio (intToFP fmt32 20)) (db_to_ratio (intToFP fmt32 100)) = true
    ∧ fplt fmt32 (ratio_to_db (litQ fmt32 1 1000)) (ratio_to_db (litQ fmt32 1 2)) = true
    ∧ fplt fmt32 (ratio_to_db (litQ fmt32 1 2)) (ratio_to_db (litQ fmt32 1 1)) = true
    ∧ fplt fmt32 (ratio_to_db (litQ fmt32 1 1)) (ratio_to_db (litQ fmt32 2 1)) = true
    ∧ fplt fmt32 (ratio_to_db (litQ fmt32 2 1)) (ratio_to_db (litQ fmt32 1000 1)) = true := by
  decide

/-- C8: no operation of the module has an error channel.  The only
potential panic site, the `assert!(min <= max)` inside `f64::clamp`, never
fires for the constant bounds used by `to_f32_lossy`, and `ratio_to_db`
applied to the out-of-domain inputs 0.0 and -1.0 still returns a plain
finite `f32` value (a large sentinel inherited from the approximate log2),
rather than signalling an error. -/
theorem operations_total :
    (∀ x : FP, f64clampChecked x f32MINasF64 f32MAXasF64 =
      some (f64clamp x f32MINasF64 f32MAXasF64))
    ∧ ratio_to_db (litQ fmt32 0 1) = FP.finite true 136 4138864
    ∧ ratio_to_db (litQ fmt32 (-1) 1) = FP.finite false 137 4237504
    ∧ (ratio_to_db (litQ fmt32 0 1)).isFinite = true
    ∧ (ratio_to_db (litQ fmt32 (-1) 1)).isFinite = true := by
  refine ⟨fun x => ?_, by decide, by decide, by decide, by decide⟩
  unfold f64clampChecked
  rw [if_pos (by decide : fple fmt64 f32MINasF64 f32MAXasF64 = true)]

/-- Witness for C8: the clamp assertion is checked at the input NaN. -/
theorem operations_total_witness :
    f64clampChecked FP.nan f32MINasF64 f32MAXasF64 =
      some (f64clamp FP.nan f32MINasF64 f32MAXasF64) :=
  operations_total.1 FP.nan

end Pleezer
